import Mathlib

/-!
# Verification of the twitter-watchdog curation pipeline

Shallow embedding of the core curation pipeline of
`src/scripts/twitter_watchdog.py` (class `TwitterWatchdog`), together with
proofs and refutations of the frozen specification claims.

Modelling conventions:
* Python strings are `String`, integers are `Nat`/`Int`.
* Python `set` of id strings is `Finset String`; `dict` with insertion order
  is an association list `List (String × _)`.
* The LLM HTTP transport (`_call_claude_api`, including its bounded retries)
  together with the response-text JSON extraction is abstracted as an oracle
  returning `Except Unit result`: `.error ()` is the exception escaping after
  exhausted retries, `.ok` carries the parsed payload and token usage.
* `datetime` values are `PyDateTime` below: an instant (seconds) plus an
  optional UTC-offset (in minutes, `none` = naive); for a naive value the
  `instant` field stores its wall-clock reading taken as UTC, which makes
  `replace(tzinfo=utc)` exactly "set the offset to 0".
* File-system side effects of a run are reified as an ordered effect trace.
-/

set_option autoImplicit false

namespace TwitterWatchdog

/-! ## Token estimation and batching

`_estimate_tokens(text) = int(len(text) * 0.4)`; for every natural length
`n`, the double rounding in `n * 0.4` stays within a quarter ulp of the exact
value `2n/5`, whose fractional part is `0` or `≥ 1/5`, so truncation yields
exactly `⌊2n/5⌋`. -/

/-- Embeds `TwitterWatchdog._estimate_tokens`: `int(len(text) * 0.4)`. -/
def estimate_tokens (text : String) : Nat := 2 * text.length / 5

/-- The loop body of `_batch_lines_by_tokens`: `cur`/`curT` are the running
`current_batch` and `current_tokens` variables. -/
def batchLoop (maxT : Nat) : List String → List String → Nat → List (List String)
  | [], cur, _ => if cur = [] then [] else [cur]
  | line :: rest, cur, curT =>
    let lt := estimate_tokens line
    if maxT < curT + lt ∧ cur ≠ [] then
      cur :: batchLoop maxT rest [line] lt
    else
      batchLoop maxT rest (cur ++ [line]) (curT + lt)

/-- Embeds `TwitterWatchdog._batch_lines_by_tokens(lines, max_content_tokens)`. -/
def batch_lines_by_tokens (lines : List String) (maxT : Nat) : List (List String) :=
  batchLoop maxT lines [] 0

/-- Estimated token cost of a whole batch. -/
def sumTokens (b : List String) : Nat := (b.map estimate_tokens).sum

theorem batchLoop_join (maxT : Nat) :
    ∀ (l cur : List String) (t : Nat), (batchLoop maxT l cur t).flatten = cur ++ l := by
  intro l
  induction l with
  | nil =>
    intro cur t
    by_cases h : cur = [] <;> simp [batchLoop, h]
  | cons line rest ih =>
    intro cur t
    by_cases h : maxT < t + estimate_tokens line ∧ cur ≠ [] <;>
      simp [batchLoop, h, ih]

theorem batchLoop_ne_nil (maxT : Nat) :
    ∀ (l cur : List String) (t : Nat) (b : List String),
      b ∈ batchLoop maxT l cur t → b ≠ [] := by
  intro l
  induction l with
  | nil =>
    intro cur t b hb
    by_cases h : cur = [] <;> simp [batchLoop, h] at hb
    subst hb; exact h
  | cons line rest ih =>
    intro cur t b hb
    by_cases h : maxT < t + estimate_tokens line ∧ cur ≠ []
    · simp [batchLoop, h] at hb
      rcases hb with hb | hb
      · subst hb; exact h.2
      · exact ih _ _ _ hb
    · simp [batchLoop, h] at hb
      exact ih _ _ _ hb

theorem batchLoop_sum_le (maxT : Nat) :
    ∀ (l cur : List String) (t : Nat),
      t = sumTokens cur → (1 < cur.length → t ≤ maxT) →
      ∀ b ∈ batchLoop maxT l cur t, 1 < b.length → sumTokens b ≤ maxT := by
  intro l
  induction l with
  | nil =>
    intro cur t ht hcur b hb hlen
    by_cases h : cur = [] <;> simp [batchLoop, h] at hb
    subst hb; exact ht ▸ hcur hlen
  | cons line rest ih =>
    intro cur t ht hcur b hb hlen
    by_cases h : maxT < t + estimate_tokens line ∧ cur ≠ []
    · simp [batchLoop, h] at hb
      rcases hb with hb | hb
      · subst hb; exact ht ▸ hcur hlen
      · refine ih [line] (estimate_tokens line) ?_ ?_ b hb hlen
        · simp [sumTokens]
        · intro hlt; simp at hlt
    · simp [batchLoop, h] at hb
      refine ih (cur ++ [line]) (t + estimate_tokens line) ?_ ?_ b hb hlen
      · simp [sumTokens, ht]
      · intro hlen2
        rcases not_and_or.mp h with h' | h'
        · exact Nat.le_of_not_lt h'
        · simp only [ne_eq, not_not] at h'
          subst h'
          simp at hlen2

theorem estimate_le_sumTokens {line : String} {b : List String} (hb : line ∈ b) :
    estimate_tokens line ≤ sumTokens b := by
  unfold sumTokens
  exact List.le_sum_of_mem (List.mem_map_of_mem estimate_tokens hb)

/-- **C4.** For every ordered list of lines and every token ceiling, the
batcher's output is an ordered partition: concatenating the batches in order
yields exactly the input list, every batch is non-empty, every batch with more
than one line has estimated token sum at most the ceiling, and a single line
whose estimate alone exceeds the ceiling still forms its own (singleton)
batch. -/
theorem c4_batcher_soundness (lines : List String) (maxT : Nat) :
    (batch_lines_by_tokens lines maxT).flatten = lines ∧
    (∀ b ∈ batch_lines_by_tokens lines maxT, b ≠ []) ∧
    (∀ b ∈ batch_lines_by_tokens lines maxT, 1 < b.length → sumTokens b ≤ maxT) ∧
    (∀ line ∈ lines, maxT < estimate_tokens line →
      ∃ b ∈ batch_lines_by_tokens lines maxT, b = [line]) := by
  have hjoin : (batch_lines_by_tokens lines maxT).flatten = lines := by
    simpa using batchLoop_join maxT lines [] 0
  have hne : ∀ b ∈ batch_lines_by_tokens lines maxT, b ≠ [] :=
    fun b hb => batchLoop_ne_nil maxT lines [] 0 b hb
  have hsum : ∀ b ∈ batch_lines_by_tokens lines maxT, 1 < b.length → sumTokens b ≤ maxT := by
    refine fun b hb => batchLoop_sum_le maxT lines [] 0 ?_ ?_ b hb
    · simp [sumTokens]
    · intro h; simp at h
  refine ⟨hjoin, hne, hsum, ?_⟩
  intro line hline hover
  have hline' : line ∈ (batch_lines_by_tokens lines maxT).flatten := by
    rw [hjoin]; exact hline
  rcases List.mem_flatten.mp hline' with ⟨b, hb, hmem⟩
  refine ⟨b, hb, ?_⟩
  have hlen : ¬ 1 < b.length := by
    intro hlen
    exact absurd (le_trans (estimate_le_sumTokens hmem) (hsum b hb hlen))
      (Nat.not_le_of_lt hover)
  match b, hmem with
  | [x], hmem =>
    have : line = x := by simpa using hmem
    simp [this]
  | x :: y :: t, _ => exact absurd (by simp) hlen

/-- Witness for C4 at a concrete input: the oversized first line
(estimate 4 > ceiling 3) forms its own singleton batch. -/
theorem c4_batcher_soundness_witness :
    ∃ b ∈ batch_lines_by_tokens ["aaaaaaaaaa", "bb"] 3, b = ["aaaaaaaaaa"] :=
  (c4_batcher_soundness ["aaaaaaaaaa", "bb"] 3).2.2.2 "aaaaaaaaaa"
    (by decide) (by decide)

/-! ## LLM oracle and robust batch calls

`_call_claude_api` (HTTP transport with up to 3 retries and escalating
timeout) composed with the response parsing (`_parse_ai_tweet_ids`,
`_parse_urgent_ids`) is abstracted as an oracle: `.error ()` models the
exception that escapes `_call_claude_api` once its bounded retries are
exhausted. -/

/-- The `usage` dict returned by the Claude API. -/
structure ClaudeUsage where
  input_tokens : Nat
  output_tokens : Nat
deriving DecidableEq, Repr

/-- Abstract LLM endpoint: one field per distinct prompt family used by the
pipeline. Each call either returns the parsed payload plus usage, or fails
(after its internal bounded retries) with an exception. -/
structure LLMOracle where
  filterCall : List String → Except Unit ((Finset String × Finset String) × ClaudeUsage)
  summarizeCall : List String → Except Unit (String × ClaudeUsage)
  mergeCall : List String → Except Unit (String × ClaudeUsage)
  validateCall : String → Except Unit (String × ClaudeUsage)

/-- Return value of `_filter_batch_robust`:
`(ai_tweet_ids, urgent_ids, input_tokens, output_tokens)`. -/
structure FilterContribution where
  ai_tweet_ids : Finset String
  urgent_ids : Finset String
  input_tokens : Nat
  output_tokens : Nat
deriving DecidableEq

/-- Return value of `_summarize_batch_robust`:
`(summaries, input_tokens, output_tokens)`. -/
structure SummarizeContribution where
  summaries : List String
  input_tokens : Nat
  output_tokens : Nat
deriving DecidableEq

/-- Embeds `TwitterWatchdog._filter_batch_robust` with the recursion's call
stack made explicit as fuel: `none` means the call stack was exhausted.
The Python body: on a successful call return the parsed id sets; on failure
return an empty contribution if the batch has at most 10 lines, else bisect
at `mid = len(lines) // 2` and merge the two recursive results. -/
def filter_batch_robustF (llm : LLMOracle) : Nat → List String → Option FilterContribution
  | 0, _ => none
  | fuel + 1, lines =>
    match llm.filterCall lines with
    | .ok (r, u) => some ⟨r.1, r.2, u.input_tokens, u.output_tokens⟩
    | .error _ =>
      if lines.length ≤ 10 then some ⟨∅, ∅, 0, 0⟩
      else
        let mid := lines.length / 2
        match filter_batch_robustF llm fuel (lines.take mid),
              filter_batch_robustF llm fuel (lines.drop mid) with
        | some r1, some r2 =>
            some ⟨r1.ai_tweet_ids ∪ r2.ai_tweet_ids, r1.urgent_ids ∪ r2.urgent_ids,
                  r1.input_tokens + r2.input_tokens, r1.output_tokens + r2.output_tokens⟩
        | _, _ => none

/-- `_filter_batch_robust` as the total function computed with sufficient
fuel (`filter_batch_robustF_isSome` shows `lines.length + 1` always
suffices, so the default is never taken). -/
def filter_batch_robust (llm : LLMOracle) (lines : List String) : FilterContribution :=
  (filter_batch_robustF llm (lines.length + 1) lines).getD ⟨∅, ∅, 0, 0⟩

/-- Embeds `TwitterWatchdog._summarize_batch_robust`, same shape as
`filter_batch_robustF`: a successful call contributes `[resp_text]`, a
failing small batch contributes `([], 0, 0)`, a failing large batch is
bisected. -/
def summarize_batch_robustF (llm : LLMOracle) : Nat → List String → Option SummarizeContribution
  | 0, _ => none
  | fuel + 1, lines =>
    match llm.summarizeCall lines with
    | .ok (txt, u) => some ⟨[txt], u.input_tokens, u.output_tokens⟩
    | .error _ =>
      if lines.length ≤ 10 then some ⟨[], 0, 0⟩
      else
        let mid := lines.length / 2
        match summarize_batch_robustF llm fuel (lines.take mid),
              summarize_batch_robustF llm fuel (lines.drop mid) with
        | some r1, some r2 =>
            some ⟨r1.summaries ++ r2.summaries,
                  r1.input_tokens + r2.input_tokens, r1.output_tokens + r2.output_tokens⟩
        | _, _ => none

/-- `_summarize_batch_robust` as the total function computed with sufficient
fuel. -/
def summarize_batch_robust (llm : LLMOracle) (lines : List String) : SummarizeContribution :=
  (summarize_batch_robustF llm (lines.length + 1) lines).getD ⟨[], 0, 0⟩

theorem take_half_lt {α : Type} (l : List α) (h : 0 < l.length) :
    (l.take (l.length / 2)).length < l.length := by
  simp only [List.length_take]
  omega

theorem drop_half_lt {α : Type} (l : List α) (h : 2 ≤ l.length) :
    (l.drop (l.length / 2)).length < l.length := by
  simp only [List.length_drop]
  omega

theorem filter_batch_robustF_isSome (llm : LLMOracle) :
    ∀ (fuel : Nat) (lines : List String), lines.length < fuel →
      (filter_batch_robustF llm fuel lines).isSome := by
  intro fuel
  induction fuel with
  | zero => intro lines h; omega
  | succ n ih =>
    intro lines h
    rw [filter_batch_robustF]
    match hc : llm.filterCall lines with
    | .ok (r, u) => simp
    | .error _ =>
      simp only
      by_cases hlen : lines.length ≤ 10
      · simp [hlen]
      · have h1 : (lines.take (lines.length / 2)).length < n := by
          simp only [List.length_take]; omega
        have h2 : (lines.drop (lines.length / 2)).length < n := by
          simp only [List.length_drop]; omega
        simp only [hlen, if_false]
        rcases Option.isSome_iff_exists.mp (ih _ h1) with ⟨r1, hr1⟩
        rcases Option.isSome_iff_exists.mp (ih _ h2) with ⟨r2, hr2⟩
        simp [hr1, hr2]

theorem summarize_batch_robustF_isSome (llm : LLMOracle) :
    ∀ (fuel : Nat) (lines : List String), lines.length < fuel →
      (summarize_batch_robustF llm fuel lines).isSome := by
  intro fuel
  induction fuel with
  | zero => intro lines h; omega
  | succ n ih =>
    intro lines h
    rw [summarize_batch_robustF]
    match hc : llm.summarizeCall lines with
    | .ok (txt, u) => simp
    | .error _ =>
      simp only
      by_cases hlen : lines.length ≤ 10
      · simp [hlen]
      · have h1 : (lines.take (lines.length / 2)).length < n := by
          simp only [List.length_take]; omega
        have h2 : (lines.drop (lines.length / 2)).length < n := by
          simp only [List.length_drop]; omega
        simp only [hlen, if_false]
        rcases Option.isSome_iff_exists.mp (ih _ h1) with ⟨r1, hr1⟩
        rcases Option.isSome_iff_exists.mp (ih _ h2) with ⟨r2, hr2⟩
        simp [hr1, hr2]

theorem filter_batch_robustF_allFail (llm : LLMOracle)
    (hf : ∀ b, llm.filterCall b = Except.error ()) :
    ∀ (fuel : Nat) (lines : List String), lines.length < fuel →
      filter_batch_robustF llm fuel lines = some ⟨∅, ∅, 0, 0⟩ := by
  intro fuel
  induction fuel with
  | zero => intro lines h; omega
  | succ n ih =>
    intro lines h
    rw [filter_batch_robustF, hf lines]
    by_cases hlen : lines.length ≤ 10
    · simp [hlen]
    · have h1 : (lines.take (lines.length / 2)).length < n := by
        simp only [List.length_take]; omega
      have h2 : (lines.drop (lines.length / 2)).length < n := by
        simp only [List.length_drop]; omega
      simp [hlen, ih _ h1, ih _ h2]

theorem summarize_batch_robustF_allFail (llm : LLMOracle)
    (hs : ∀ b, llm.summarizeCall b = Except.error ()) :
    ∀ (fuel : Nat) (lines : List String), lines.length < fuel →
      summarize_batch_robustF llm fuel lines = some ⟨[], 0, 0⟩ := by
  intro fuel
  induction fuel with
  | zero => intro lines h; omega
  | succ n ih =>
    intro lines h
    rw [summarize_batch_robustF, hs lines]
    by_cases hlen : lines.length ≤ 10
    · simp [hlen]
    · have h1 : (lines.take (lines.length / 2)).length < n := by
        simp only [List.length_take]; omega
      have h2 : (lines.drop (lines.length / 2)).length < n := by
        simp only [List.length_drop]; omega
      simp [hlen, ih _ h1, ih _ h2]

theorem filter_batch_robust_basefail {llm : LLMOracle} {lines : List String}
    (hc : llm.filterCall lines = Except.error ()) (hlen : lines.length ≤ 10) :
    filter_batch_robust llm lines = ⟨∅, ∅, 0, 0⟩ := by
  rw [filter_batch_robust, filter_batch_robustF, hc]
  simp [hlen]

theorem summarize_batch_robust_basefail {llm : LLMOracle} {lines : List String}
    (hc : llm.summarizeCall lines = Except.error ()) (hlen : lines.length ≤ 10) :
    summarize_batch_robust llm lines = ⟨[], 0, 0⟩ := by
  rw [summarize_batch_robust, summarize_batch_robustF, hc]
  simp [hlen]

theorem summarize_batch_robust_allFail {llm : LLMOracle}
    (hs : ∀ b, llm.summarizeCall b = Except.error ()) (lines : List String) :
    summarize_batch_robust llm lines = ⟨[], 0, 0⟩ := by
  rw [summarize_batch_robust,
    summarize_batch_robustF_allFail llm hs (lines.length + 1) lines (by omega)]
  rfl

theorem filter_batch_robust_ok {llm : LLMOracle} {lines : List String}
    {r : Finset String × Finset String} {u : ClaudeUsage}
    (hc : llm.filterCall lines = Except.ok (r, u)) :
    filter_batch_robust llm lines = ⟨r.1, r.2, u.input_tokens, u.output_tokens⟩ := by
  rw [filter_batch_robust, filter_batch_robustF, hc]
  rfl

theorem summarize_batch_robust_ok {llm : LLMOracle} {lines : List String}
    {txt : String} {u : ClaudeUsage}
    (hc : llm.summarizeCall lines = Except.ok (txt, u)) :
    summarize_batch_robust llm lines = ⟨[txt], u.input_tokens, u.output_tokens⟩ := by
  rw [summarize_batch_robust, summarize_batch_robustF, hc]
  rfl

/-! ## Batched summarization (`_batched_summarize_from_lines`) -/

/-- The `partial_summaries` accumulator of `_batched_summarize_from_lines`:
batch the content lines, run the robust summarizer per batch, and extend the
list with each batch's summaries. -/
def partial_summaries (llm : LLMOracle) (maxContentTokens : Nat)
    (content_lines : List String) : List String :=
  (batch_lines_by_tokens content_lines maxContentTokens).foldl
    (fun acc b => acc ++ (summarize_batch_robust llm b).summaries) []

/-- Embeds `TwitterWatchdog._validate_summary`: a failing validation call is
caught and the original summary text is returned unchanged. -/
def validate_summary (llm : LLMOracle) (summary_text : String) : String :=
  match llm.validateCall summary_text with
  | .ok (v, _) => v
  | .error _ => summary_text

/-- Embeds `TwitterWatchdog._batched_summarize_from_lines`: no partial
summary means `(None, ai_tweet_ids)`; exactly one goes through
`_validate_summary`; two or more go through the merge call, whose failure
is NOT caught in the source (the exception propagates as `.error ()`). -/
def batched_summarize_from_lines (llm : LLMOracle) (maxContentTokens : Nat)
    (content_lines : List String) (ai_tweet_ids : Option (Finset String)) :
    Except Unit (Option String × Option (Finset String)) :=
  match partial_summaries llm maxContentTokens content_lines with
  | [] => .ok (none, ai_tweet_ids)
  | [s] => .ok (some (validate_summary llm s), ai_tweet_ids)
  | s1 :: s2 :: rest =>
    match llm.mergeCall (s1 :: s2 :: rest) with
    | .ok (m, _) => .ok (some m, ai_tweet_ids)
    | .error _ => .error ()

theorem partial_summaries_allFail {llm : LLMOracle}
    (hs : ∀ b, llm.summarizeCall b = Except.error ())
    (maxCT : Nat) (lines : List String) :
    partial_summaries llm maxCT lines = [] := by
  rw [partial_summaries]
  generalize batch_lines_by_tokens lines maxCT = L
  induction L with
  | nil => rfl
  | cons b L ih => simpa [summarize_batch_robust_allFail hs b] using ih

/-- **C5.** The recursive batch-split retry terminates for every input:
with every LLM call failing, a batch of more than 10 lines is bisected into
two strictly smaller halves, recursion bottoms out at leaves of at most 10
lines, and the fuel-indexed call stack completes (returning the all-empty
contribution) whenever the fuel exceeds the batch size — in particular
regardless of the initial batch size. -/
theorem c5_recursive_split_terminates (llm : LLMOracle) (lines : List String) (fuel : Nat)
    (hf : ∀ b, llm.filterCall b = Except.error ())
    (hs : ∀ b, llm.summarizeCall b = Except.error ())
    (hfuel : lines.length < fuel) :
    filter_batch_robustF llm fuel lines = some ⟨∅, ∅, 0, 0⟩ ∧
    summarize_batch_robustF llm fuel lines = some ⟨[], 0, 0⟩ ∧
    (10 < lines.length →
      (lines.take (lines.length / 2)).length < lines.length ∧
      (lines.drop (lines.length / 2)).length < lines.length) :=
  ⟨filter_batch_robustF_allFail llm hf fuel lines hfuel,
   summarize_batch_robustF_allFail llm hs fuel lines hfuel,
   fun h => ⟨take_half_lt lines (by omega), drop_half_lt lines (by omega)⟩⟩

/-- An oracle on which every call fails. -/
def failLLM : LLMOracle :=
  ⟨fun _ => .error (), fun _ => .error (), fun _ => .error (), fun _ => .error ()⟩

/-- Witness for C5: a concrete 12-line batch with an always-failing oracle
and call-stack budget 13 completes with the empty contribution. -/
theorem c5_recursive_split_terminates_witness :
    filter_batch_robustF failLLM 13 ["a","b","c","d","e","f","g","h","i","j","k","l"]
      = some ⟨∅, ∅, 0, 0⟩ ∧
    summarize_batch_robustF failLLM 13 ["a","b","c","d","e","f","g","h","i","j","k","l"]
      = some ⟨[], 0, 0⟩ :=
  ⟨(c5_recursive_split_terminates failLLM _ 13 (fun _ => rfl) (fun _ => rfl) (by decide)).1,
   (c5_recursive_split_terminates failLLM _ 13 (fun _ => rfl) (fun _ => rfl) (by decide)).2.1⟩

/-- **C6.** A batch of at most 10 lines whose LLM call fails yields an empty
contribution — empty id sets (resp. empty summary list) and zero token usage
— and, the robust wrappers being total, no exception: with every summarize
call failing, `_batched_summarize_from_lines` still returns normally with
`(None, ai_tweet_ids)` instead of aborting the run. -/
theorem c6_exhausted_small_batch :
    (∀ (llm : LLMOracle) (lines : List String),
      llm.filterCall lines = Except.error () → lines.length ≤ 10 →
      filter_batch_robust llm lines = ⟨∅, ∅, 0, 0⟩) ∧
    (∀ (llm : LLMOracle) (lines : List String),
      llm.summarizeCall lines = Except.error () → lines.length ≤ 10 →
      summarize_batch_robust llm lines = ⟨[], 0, 0⟩) ∧
    (∀ (llm : LLMOracle) (maxCT : Nat) (lines : List String) (ids : Option (Finset String)),
      (∀ b, llm.summarizeCall b = Except.error ()) →
      batched_summarize_from_lines llm maxCT lines ids = Except.ok (none, ids)) := by
  refine ⟨fun llm lines hc hlen => filter_batch_robust_basefail hc hlen,
          fun llm lines hc hlen => summarize_batch_robust_basefail hc hlen,
          fun llm maxCT lines ids hs => ?_⟩
  rw [batched_summarize_from_lines, partial_summaries_allFail hs]

/-- Witness for C6 at a concrete 8-line batch with the always-failing
oracle. -/
theorem c6_exhausted_small_batch_witness :
    filter_batch_robust failLLM ["a","b","c","d","e","f","g","h"] = ⟨∅, ∅, 0, 0⟩ ∧
    summarize_batch_robust failLLM ["a","b","c","d","e","f","g","h"] = ⟨[], 0, 0⟩ ∧
    batched_summarize_from_lines failLLM 100 ["a","b","c","d","e","f","g","h"] none
      = Except.ok (none, none) :=
  ⟨c6_exhausted_small_batch.1 failLLM _ rfl (by decide),
   c6_exhausted_small_batch.2.1 failLLM _ rfl (by decide),
   c6_exhausted_small_batch.2.2 failLLM 100 _ none (fun _ => rfl)⟩

/-! ## C1: merge/validate failure behaviour -/

/-- A concrete oracle: relevance calls succeed with empty id sets, summarize
calls succeed (joining the batch with commas), merge and validate calls
fail. -/
def exLLM : LLMOracle :=
  ⟨fun _ => .ok ((∅, ∅), ⟨5, 5⟩),
   fun b => .ok (String.intercalate "," b, ⟨1, 1⟩),
   fun _ => .error (),
   fun _ => .error ()⟩

/-- **C1, counterexample.** At a concrete two-batch input whose per-batch
summarize calls succeed, a failing merge call makes
`_batched_summarize_from_lines` propagate the exception (`.error ()`): the
pipeline aborts instead of falling back to the raw concatenation of the
partial batch summaries, refuting the claim for the multi-batch path. -/
theorem c1_counterexample :
    batched_summarize_from_lines exLLM 1 ["aaaa", "bbbb"] none = Except.error () := by
  rfl

/-- **C1 (amended).** A failing validation call on the single-batch path is
non-fatal: `_validate_summary` returns the original summary unchanged, and
the run returns it as the final summary. On the multi-batch path, however, a
failing merge call propagates its exception out of
`_batched_summarize_from_lines` — the pipeline does not fall back to the raw
concatenation. -/
theorem c1_merge_validate_failure :
    (∀ (llm : LLMOracle) (s : String),
      llm.validateCall s = Except.error () → validate_summary llm s = s) ∧
    (∀ (llm : LLMOracle) (maxCT : Nat) (lines : List String)
        (ids : Option (Finset String)) (s : String),
      partial_summaries llm maxCT lines = [s] →
      llm.validateCall s = Except.error () →
      batched_summarize_from_lines llm maxCT lines ids = Except.ok (some s, ids)) ∧
    (∀ (llm : LLMOracle) (maxCT : Nat) (lines : List String)
        (ids : Option (Finset String)),
      2 ≤ (partial_summaries llm maxCT lines).length →
      llm.mergeCall (partial_summaries llm maxCT lines) = Except.error () →
      batched_summarize_from_lines llm maxCT lines ids = Except.error ()) := by
  refine ⟨?_, ?_, ?_⟩
  · intro llm s hv
    rw [validate_summary, hv]
  · intro llm maxCT lines ids s hp hv
    have h1 : validate_summary llm s = s := by rw [validate_summary, hv]
    rw [batched_summarize_from_lines, hp]
    simp [h1]
  · intro llm maxCT lines ids hlen hm
    rcases hL : partial_summaries llm maxCT lines with _ | ⟨s1, _ | ⟨s2, rest⟩⟩
    · rw [hL] at hlen; simp at hlen
    · rw [hL] at hlen; simp at hlen
    · rw [hL] at hm
      rw [batched_summarize_from_lines, hL]
      simp [hm]

/-- Witness for C1 (amended) at concrete inputs: with `exLLM`, a wide ceiling
gives one batch and the failing validation returns the raw summary; a narrow
ceiling gives two batches and the failing merge aborts. -/
theorem c1_merge_validate_failure_witness :
    validate_summary exLLM "x" = "x" ∧
    batched_summarize_from_lines exLLM 100 ["aaaa", "bbbb"] none
      = Except.ok (some "aaaa,bbbb", none) ∧
    batched_summarize_from_lines exLLM 1 ["aaaa", "bbbb"] none = Except.error () :=
  ⟨c1_merge_validate_failure.1 exLLM "x" rfl,
   c1_merge_validate_failure.2.1 exLLM 100 ["aaaa", "bbbb"] none "aaaa,bbbb" rfl rfl,
   c1_merge_validate_failure.2.2 exLLM 1 ["aaaa", "bbbb"] none (by decide) rfl⟩

/-! ## C3: the relevance pass (`_filter_and_summarize`, Pass 1) -/

/-- One iteration of the Pass-1 loop of `_filter_and_summarize`:
`ai_tweet_ids.update(ids)`, `urgent_ids.update(urg)`, and the token-usage
accumulation. -/
def relevanceStep (llm : LLMOracle) (acc : FilterContribution)
    (b : List String) : FilterContribution :=
  let r := filter_batch_robust llm b
  ⟨acc.ai_tweet_ids ∪ r.ai_tweet_ids, acc.urgent_ids ∪ r.urgent_ids,
   acc.input_tokens + r.input_tokens, acc.output_tokens + r.output_tokens⟩

/-- The Pass-1 loop of `_filter_and_summarize`: run the robust filter over
each batch of ID-tagged lines, unioning the returned id sets and summing the
token usage. -/
def relevance_pass (llm : LLMOracle) (maxContentTokens : Nat)
    (tweet_lines : List String) : FilterContribution :=
  (batch_lines_by_tokens tweet_lines maxContentTokens).foldl
    (relevanceStep llm) ⟨∅, ∅, 0, 0⟩

/-- The fallback decision of `_filter_and_summarize` after Pass 1
(`if not ai_tweet_ids: return None, None`): `none` models "treat every tweet
as relevant" (the caller keeps all tweets), `some` carries the unioned id
sets into Pass 2. -/
def filter_and_summarize_pass1 (llm : LLMOracle) (maxContentTokens : Nat)
    (tweet_lines : List String) : Option (Finset String × Finset String) :=
  let r := relevance_pass llm maxContentTokens tweet_lines
  if r.ai_tweet_ids = ∅ then none else some (r.ai_tweet_ids, r.urgent_ids)

theorem relevanceStep_ids (llm : LLMOracle) (acc : FilterContribution)
    (b : List String) :
    (relevanceStep llm acc b).ai_tweet_ids
        = acc.ai_tweet_ids ∪ (filter_batch_robust llm b).ai_tweet_ids ∧
    (relevanceStep llm acc b).urgent_ids
        = acc.urgent_ids ∪ (filter_batch_robust llm b).urgent_ids :=
  ⟨rfl, rfl⟩

theorem relevance_fold_mono (llm : LLMOracle) :
    ∀ (L : List (List String)) (acc : FilterContribution),
      acc.ai_tweet_ids ⊆ (L.foldl (relevanceStep llm) acc).ai_tweet_ids ∧
      acc.urgent_ids ⊆ (L.foldl (relevanceStep llm) acc).urgent_ids := by
  intro L
  induction L with
  | nil => intro acc; exact ⟨Finset.Subset.refl _, Finset.Subset.refl _⟩
  | cons b L ih =>
    intro acc
    rw [List.foldl_cons]
    refine ⟨Finset.Subset.trans ?_ (ih (relevanceStep llm acc b)).1,
            Finset.Subset.trans ?_ (ih (relevanceStep llm acc b)).2⟩
    · rw [(relevanceStep_ids llm acc b).1]; exact Finset.subset_union_left
    · rw [(relevanceStep_ids llm acc b).2]; exact Finset.subset_union_left

theorem relevance_fold_contrib (llm : LLMOracle) :
    ∀ (L : List (List String)) (acc : FilterContribution) (b : List String), b ∈ L →
      (filter_batch_robust llm b).ai_tweet_ids
          ⊆ (L.foldl (relevanceStep llm) acc).ai_tweet_ids ∧
      (filter_batch_robust llm b).urgent_ids
          ⊆ (L.foldl (relevanceStep llm) acc).urgent_ids := by
  intro L
  induction L with
  | nil => intro acc b hb; simp at hb
  | cons b0 L ih =>
    intro acc b hb
    rcases List.mem_cons.mp hb with hb | hb
    · subst hb
      rw [List.foldl_cons]
      refine ⟨Finset.Subset.trans ?_ (relevance_fold_mono llm L _).1,
              Finset.Subset.trans ?_ (relevance_fold_mono llm L _).2⟩
      · rw [(relevanceStep_ids llm acc b).1]; exact Finset.subset_union_right
      · rw [(relevanceStep_ids llm acc b).2]; exact Finset.subset_union_right
    · rw [List.foldl_cons]
      exact ih _ b hb

theorem relevance_fold_empty_iff (llm : LLMOracle) :
    ∀ (L : List (List String)) (acc : FilterContribution),
      (L.foldl (relevanceStep llm) acc).ai_tweet_ids = ∅ ↔
      (acc.ai_tweet_ids = ∅ ∧
        ∀ b ∈ L, (filter_batch_robust llm b).ai_tweet_ids = ∅) := by
  intro L
  induction L with
  | nil => intro acc; simp
  | cons b0 L ih =>
    intro acc
    rw [List.foldl_cons, ih]
    rw [(relevanceStep_ids llm acc b0).1]
    simp only [Finset.union_eq_empty, List.mem_cons]
    constructor
    · rintro ⟨⟨h1, h2⟩, h3⟩
      exact ⟨h1, fun b hb => by
        rcases hb with hb | hb
        · subst hb; exact h2
        · exact h3 b hb⟩
    · rintro ⟨h1, h2⟩
      exact ⟨⟨h1, h2 b0 (Or.inl rfl)⟩, fun b hb => h2 b (Or.inr hb)⟩

/-- **C3, counterexample.** A single batch whose relevance call *returns a
result* — `Except.ok` with an empty relevant-id set — still triggers the
fall-back to "treat everything as relevant" (`none`), refuting the claim
that the fallback occurs only when zero batches returned a result. -/
theorem c3_counterexample :
    exLLM.filterCall ["x"] = Except.ok ((∅, ∅), ⟨5, 5⟩) ∧
    batch_lines_by_tokens ["x"] 100 = [["x"]] ∧
    filter_and_summarize_pass1 exLLM 100 ["x"] = none := by
  refine ⟨rfl, rfl, ?_⟩
  have hrob : filter_batch_robust exLLM ["x"] = ⟨∅, ∅, 5, 5⟩ :=
    filter_batch_robust_ok (show exLLM.filterCall ["x"]
      = Except.ok ((∅, ∅), ⟨5, 5⟩) from rfl)
  rw [filter_and_summarize_pass1]
  simp only [relevance_pass]
  rw [batch_lines_by_tokens]
  simp [batchLoop, relevanceStep, hrob]

/-- **C3 (amended).** The relevance pass unions the relevant-id and
urgent-id sets contributed by every batch, and falls back to treating all
items as relevant exactly when the unioned relevant-id set is empty — which
happens when zero batches returned a result, but also when every returned
result carried an empty relevant-id set. When the union is non-empty, the
pipeline proceeds with the unioned sets, which contain every batch's
contribution. -/
theorem c3_relevance_union_fallback (llm : LLMOracle) (maxCT : Nat)
    (tweet_lines : List String) :
    (filter_and_summarize_pass1 llm maxCT tweet_lines = none ↔
      ∀ b ∈ batch_lines_by_tokens tweet_lines maxCT,
        (filter_batch_robust llm b).ai_tweet_ids = ∅) ∧
    ((relevance_pass llm maxCT tweet_lines).ai_tweet_ids ≠ ∅ →
      filter_and_summarize_pass1 llm maxCT tweet_lines
        = some ((relevance_pass llm maxCT tweet_lines).ai_tweet_ids,
                (relevance_pass llm maxCT tweet_lines).urgent_ids)) ∧
    (∀ b ∈ batch_lines_by_tokens tweet_lines maxCT,
      (filter_batch_robust llm b).ai_tweet_ids
          ⊆ (relevance_pass llm maxCT tweet_lines).ai_tweet_ids ∧
      (filter_batch_robust llm b).urgent_ids
          ⊆ (relevance_pass llm maxCT tweet_lines).urgent_ids) := by
  refine ⟨?_, ?_, ?_⟩
  · rw [filter_and_summarize_pass1]
    by_cases h : (relevance_pass llm maxCT tweet_lines).ai_tweet_ids = ∅
    · simp only [h, if_true]
      have := (relevance_fold_empty_iff llm
        (batch_lines_by_tokens tweet_lines maxCT) ⟨∅, ∅, 0, 0⟩).mp h
      simpa using this.2
    · simp only [h, if_false]
      constructor
      · intro hc; exact absurd hc (by simp)
      · intro hall
        exact absurd ((relevance_fold_empty_iff llm
          (batch_lines_by_tokens tweet_lines maxCT) ⟨∅, ∅, 0, 0⟩).mpr
            ⟨rfl, hall⟩) h
  · intro h
    rw [filter_and_summarize_pass1]
    simp [h]
  · intro b hb
    exact relevance_fold_contrib llm (batch_lines_by_tokens tweet_lines maxCT)
      ⟨∅, ∅, 0, 0⟩ b hb

/-- Witness for C3 (amended): an oracle returning relevant id `"7"` on every
call makes the single-batch pass proceed with the unioned sets. -/
def okLLM : LLMOracle :=
  ⟨fun _ => .ok (({"7"}, ∅), ⟨5, 5⟩),
   fun _ => .error (), fun _ => .error (), fun _ => .error ()⟩

theorem c3_relevance_union_fallback_witness :
    filter_and_summarize_pass1 okLLM 100 ["x"]
      = some ((relevance_pass okLLM 100 ["x"]).ai_tweet_ids,
              (relevance_pass okLLM 100 ["x"]).urgent_ids) :=
  (c3_relevance_union_fallback okLLM 100 ["x"]).2.1 (by decide)

/-! ## Dedup ledger and the scrape run (`run_scrape`)

`get_tweet_hash` (the md5 hex digest of the id) is abstracted as an
arbitrary digest function `hash : String → String`; no claim depends on
properties of md5. The twitterapi.io providers are abstracted as the given
`followings`/`trending_tweets` data (their success path), and the
file-system side effects of the run are reified in order as a
`ScrapeEffect` trace. -/

/-- A collected tweet; only the fields the claims mention. -/
structure Tweet where
  id : String
  createdAt : String
deriving DecidableEq, Repr

/-- One entry of the followings list together with its fetched tweets. -/
structure UserData where
  username : String
  tweets : List Tweet
deriving DecidableEq, Repr

/-- Embeds `TwitterWatchdog.is_tweet_seen`. -/
def is_tweet_seen (hash : String → String) (seen : Finset String)
    (tweet_id : String) : Bool :=
  decide (hash tweet_id ∈ seen)

/-- Embeds `TwitterWatchdog.mark_tweet_seen`. -/
def mark_tweet_seen (hash : String → String) (seen : Finset String)
    (tweet_id : String) : Finset String :=
  insert (hash tweet_id) seen

/-- One iteration of the per-user tweet loop in `run_scrape`:
`if deduplicate and is_tweet_seen(id): continue` else keep and mark seen. -/
def collectStep (dedup : Bool) (hash : String → String)
    (acc : List Tweet × Finset String) (t : Tweet) : List Tweet × Finset String :=
  if dedup && is_tweet_seen hash acc.2 t.id then acc
  else (acc.1 ++ [t], mark_tweet_seen hash acc.2 t.id)

/-- The `new_tweets` computation of `run_scrape` for one user's tweets. -/
def collectUser (dedup : Bool) (hash : String → String) (seen : Finset String)
    (tweets : List Tweet) : List Tweet × Finset String :=
  tweets.foldl (collectStep dedup hash) ([], seen)

/-- One iteration of the followings loop in `run_scrape`: a user whose
`new_tweets` list is empty contributes no `all_data` entry. -/
def collectAllStep (dedup : Bool) (hash : String → String)
    (acc : List (String × List Tweet) × Finset String) (ud : UserData) :
    List (String × List Tweet) × Finset String :=
  let r := collectUser dedup hash acc.2 ud.tweets
  (if r.1 = [] then acc.1 else acc.1 ++ [(ud.username, r.1)], r.2)

/-- The full `all_data` collection loop of `run_scrape`. -/
def collectAll (dedup : Bool) (hash : String → String) (seen0 : Finset String)
    (followings : List UserData) : List (String × List Tweet) × Finset String :=
  followings.foldl (collectAllStep dedup hash) ([], seen0)

/-- Persistent side effects of one scrape run, in program order. -/
inductive ScrapeEffect where
  | saveState (seen : Finset String)
  | writeRawFile (followings : List (String × List Tweet)) (trending : List Tweet)
deriving DecidableEq

/-- Result of `run_scrape`: the ordered persistence trace plus the data the
run computed. -/
structure ScrapeResult where
  trace : List ScrapeEffect
  all_data : List (String × List Tweet)
  trending : List Tweet
  seenAfter : Finset String
deriving DecidableEq

/-- Embeds `TwitterWatchdog.run_scrape` (steps 2-3 plus the persistence
tail): collect per-user new tweets with dedup+mark, filter the trending
tweets only against the ids collected *in this run* (`seen_ids` is built
from `all_data`, not from the ledger), then `save_state()` and only
afterwards write the raw artifact. -/
def run_scrape (dedup : Bool) (hash : String → String) (seen0 : Finset String)
    (followings : List UserData) (trending_tweets : List Tweet) : ScrapeResult :=
  let c := collectAll dedup hash seen0 followings
  let runIds : Finset String :=
    c.1.foldl (fun s p => p.2.foldl (fun s t => insert t.id s) s) ∅
  let kept := trending_tweets.filter (fun t => decide (t.id ∉ runIds))
  { trace := [.saveState c.2, .writeRawFile c.1 kept],
    all_data := c.1, trending := kept, seenAfter := c.2 }

theorem collectStep_seen_mono (dedup : Bool) (hash : String → String)
    (acc : List Tweet × Finset String) (t : Tweet) :
    acc.2 ⊆ (collectStep dedup hash acc t).2 := by
  rw [collectStep]
  by_cases h : (dedup && is_tweet_seen hash acc.2 t.id) = true
  · simp [h]
  · simp only [h, if_false]
    exact Finset.subset_insert _ _

theorem collectUser_fold_inv (dedup : Bool) (hash : String → String)
    (seen0 : Finset String) :
    ∀ (ts : List Tweet) (acc : List Tweet × Finset String),
      seen0 ⊆ acc.2 →
      (∀ t ∈ acc.1, hash t.id ∈ acc.2) →
      (dedup = true → ∀ t ∈ acc.1, hash t.id ∉ seen0) →
      seen0 ⊆ (ts.foldl (collectStep dedup hash) acc).2 ∧
      (∀ t ∈ (ts.foldl (collectStep dedup hash) acc).1,
        hash t.id ∈ (ts.foldl (collectStep dedup hash) acc).2) ∧
      (dedup = true →
        ∀ t ∈ (ts.foldl (collectStep dedup hash) acc).1, hash t.id ∉ seen0) := by
  intro ts
  induction ts with
  | nil => intro acc h1 h2 h3; exact ⟨h1, h2, h3⟩
  | cons t ts ih =>
    intro acc h1 h2 h3
    rw [List.foldl_cons]
    refine ih (collectStep dedup hash acc t) ?_ ?_ ?_
    · exact Finset.Subset.trans h1 (collectStep_seen_mono dedup hash acc t)
    · rw [collectStep]
      by_cases h : (dedup && is_tweet_seen hash acc.2 t.id) = true
      · simp only [h, if_true]; exact h2
      · simp only [h, if_false]
        intro x hx
        rcases List.mem_append.mp hx with hx | hx
        · exact Finset.mem_insert_of_mem (h2 x hx)
        · simp only [List.mem_singleton] at hx
          subst hx
          exact Finset.mem_insert_self _ _
    · intro hd x hx
      rw [collectStep] at hx
      by_cases h : (dedup && is_tweet_seen hash acc.2 t.id) = true
      · rw [if_pos h] at hx; exact h3 hd x hx
      · rw [if_neg h] at hx
        rcases List.mem_append.mp hx with hx | hx
        · exact h3 hd x hx
        · simp only [List.mem_singleton] at hx
          subst hx
          subst hd
          simp only [Bool.true_and, is_tweet_seen, decide_eq_true_eq] at h
          exact fun hc => h (h1 hc)

theorem collectAll_fold_inv (dedup : Bool) (hash : String → String)
    (seen0 : Finset String) :
    ∀ (us : List UserData) (acc : List (String × List Tweet) × Finset String),
      seen0 ⊆ acc.2 →
      (∀ p ∈ acc.1, ∀ t ∈ p.2, hash t.id ∈ acc.2) →
      (dedup = true → ∀ p ∈ acc.1, ∀ t ∈ p.2, hash t.id ∉ seen0) →
      seen0 ⊆ (us.foldl (collectAllStep dedup hash) acc).2 ∧
      (∀ p ∈ (us.foldl (collectAllStep dedup hash) acc).1,
        ∀ t ∈ p.2, hash t.id ∈ (us.foldl (collectAllStep dedup hash) acc).2) ∧
      (dedup = true →
        ∀ p ∈ (us.foldl (collectAllStep dedup hash) acc).1,
          ∀ t ∈ p.2, hash t.id ∉ seen0) := by
  intro us
  induction us with
  | nil => intro acc h1 h2 h3; exact ⟨h1, h2, h3⟩
  | cons u us ih =>
    intro acc h1 h2 h3
    rw [List.foldl_cons]
    have hu := collectUser_fold_inv dedup hash seen0 u.tweets ([], acc.2)
      h1 (by intro t ht; simp at ht) (by intro _ t ht; simp at ht)
    have huser : acc.2 ⊆ (collectUser dedup hash acc.2 u.tweets).2 := by
      have := collectUser_fold_inv dedup hash acc.2 u.tweets ([], acc.2)
        (Finset.Subset.refl _) (by intro t ht; simp at ht)
        (by intro _ t ht; simp at ht)
      exact this.1
    refine ih (collectAllStep dedup hash acc u) ?_ ?_ ?_
    · exact Finset.Subset.trans h1
        (by rw [collectAllStep]
            by_cases h : (collectUser dedup hash acc.2 u.tweets).1 = [] <;>
              simp only [h, if_true, if_false] <;> exact huser)
    · rw [collectAllStep]
      by_cases h : (collectUser dedup hash acc.2 u.tweets).1 = []
      · simp only [h, if_true]
        intro p hp t ht
        exact huser (h2 p hp t ht)
      · simp only [h, if_false]
        intro p hp t ht
        rcases List.mem_append.mp hp with hp | hp
        · exact huser (h2 p hp t ht)
        · simp only [List.mem_singleton] at hp
          subst hp
          exact hu.2.1 t ht
    · intro hd p hp t ht
      rw [collectAllStep] at hp
      by_cases h : (collectUser dedup hash acc.2 u.tweets).1 = []
      · rw [if_pos h] at hp; exact h3 hd p hp t ht
      · rw [if_neg h] at hp
        rcases List.mem_append.mp hp with hp | hp
        · exact h3 hd p hp t ht
        · simp only [List.mem_singleton] at hp
          subst hp
          exact hu.2.2 hd t ht

/-- The digest function used in concrete scenarios. -/
def exHash (s : String) : String := s ++ "#"

/-- **C2, counterexample.** At a concrete input (empty ledger, one account
with one new tweet), the run's persistence trace commits the seen-ids ledger
(`save_state`, already containing the new item's hash) strictly *before* the
raw collection artifact is written: a crash between the two would leave the
item persistently marked seen without any durable record of it, refuting the
claimed ordering. -/
theorem c2_counterexample :
    (run_scrape true exHash ∅ [⟨"alice", [⟨"1", "t"⟩]⟩] []).trace
      = [ScrapeEffect.saveState {"1#"},
         ScrapeEffect.writeRawFile [("alice", [⟨"1", "t"⟩])] []] := by
  rfl

/-- **C2 (amended).** The seen-ids ledger is persisted exactly once per run,
after the collection loop completes but *before* the raw collection artifact
is written: the run's effect trace is `save_state` followed by the raw-file
write, and the ledger state committed by `save_state` already contains the
hash of every item collected in the run (and everything previously seen).
Hence a crash during collection persists nothing, but a crash between
`save_state` and the artifact write marks the run's items seen without a
durable record. -/
theorem c2_save_state_before_artifact (dedup : Bool) (hash : String → String)
    (seen0 : Finset String) (followings : List UserData) (trending : List Tweet) :
    (run_scrape dedup hash seen0 followings trending).trace
      = [ScrapeEffect.saveState (run_scrape dedup hash seen0 followings trending).seenAfter,
         ScrapeEffect.writeRawFile
           (run_scrape dedup hash seen0 followings trending).all_data
           (run_scrape dedup hash seen0 followings trending).trending] ∧
    seen0 ⊆ (run_scrape dedup hash seen0 followings trending).seenAfter ∧
    (∀ p ∈ (run_scrape dedup hash seen0 followings trending).all_data,
      ∀ t ∈ p.2, hash t.id ∈ (run_scrape dedup hash seen0 followings trending).seenAfter) := by
  have h := collectAll_fold_inv dedup hash seen0 followings ([], seen0)
    (Finset.Subset.refl _) (by intro p hp; simp at hp) (by intro _ p hp; simp at hp)
  exact ⟨rfl, h.1, h.2.1⟩

/-- Witness for C2 (amended) at the concrete input of the counterexample. -/
theorem c2_save_state_before_artifact_witness :
    (run_scrape true exHash ∅ [⟨"alice", [⟨"1", "t"⟩]⟩] []).trace
      = [ScrapeEffect.saveState
           (run_scrape true exHash ∅ [⟨"alice", [⟨"1", "t"⟩]⟩] []).seenAfter,
         ScrapeEffect.writeRawFile
           (run_scrape true exHash ∅ [⟨"alice", [⟨"1", "t"⟩]⟩] []).all_data
           (run_scrape true exHash ∅ [⟨"alice", [⟨"1", "t"⟩]⟩] []).trending] ∧
    exHash "1" ∈ (run_scrape true exHash ∅ [⟨"alice", [⟨"1", "t"⟩]⟩] []).seenAfter :=
  ⟨(c2_save_state_before_artifact true exHash ∅ [⟨"alice", [⟨"1", "t"⟩]⟩] []).1,
   (c2_save_state_before_artifact true exHash ∅ [⟨"alice", [⟨"1", "t"⟩]⟩] []).2.2
     ("alice", [⟨"1", "t"⟩]) (by decide) ⟨"1", "t"⟩ (by decide)⟩

/-- **C8, counterexample.** An item whose id was marked seen in an earlier
committed run (its hash is in the ledger) and that arrives through the
*trending* provider is re-emitted into the run's raw data: `run_scrape`
filters trending tweets only against the ids collected from followed
accounts in the same run, never against the seen ledger, refuting
"excluded ... regardless of which provider it arrived through". -/
theorem c8_counterexample :
    is_tweet_seen exHash {"1#"} "1" = true ∧
    (run_scrape true exHash {"1#"} [] [⟨"1", "t"⟩]).trending = [⟨"1", "t"⟩] := by
  constructor <;> rfl

/-- **C8 (amended).** `mark_seen` is idempotent — marking an id twice yields
the same ledger as marking it once, and `is_seen` then returns true — and,
with deduplication enabled, an item whose hash is already in the ledger is
excluded from every subsequent run's new *followed-account* items (every
collected tweet's hash is fresh). Trending-search items, however, are only
deduplicated against the followed items collected in the same run, not
against the ledger. -/
theorem c8_dedup_idempotence :
    (∀ (hash : String → String) (seen : Finset String) (id : String),
      mark_tweet_seen hash (mark_tweet_seen hash seen id) id
        = mark_tweet_seen hash seen id) ∧
    (∀ (hash : String → String) (seen : Finset String) (id : String),
      is_tweet_seen hash (mark_tweet_seen hash seen id) id = true) ∧
    (∀ (hash : String → String) (seen0 : Finset String)
        (followings : List UserData) (trending : List Tweet),
      ∀ p ∈ (run_scrape true hash seen0 followings trending).all_data,
        ∀ t ∈ p.2, hash t.id ∉ seen0) := by
  refine ⟨?_, ?_, ?_⟩
  · intro hash seen id
    simp [mark_tweet_seen]
  · intro hash seen id
    rw [is_tweet_seen, mark_tweet_seen]
    simp
  · intro hash seen0 followings trending p hp t ht
    have h := collectAll_fold_inv true hash seen0 followings ([], seen0)
      (Finset.Subset.refl _) (by intro p hp; simp at hp) (by intro _ p hp; simp at hp)
    exact h.2.2 rfl p hp t ht

/-- Witness for C8 (amended) at concrete inputs: a previously-seen id is
kept out of the followed-account data of a later run. -/
theorem c8_dedup_idempotence_witness :
    mark_tweet_seen exHash (mark_tweet_seen exHash ∅ "1") "1"
      = mark_tweet_seen exHash ∅ "1" ∧
    is_tweet_seen exHash (mark_tweet_seen exHash ∅ "1") "1" = true ∧
    exHash "1" ∉ (∅ : Finset String) :=
  ⟨c8_dedup_idempotence.1 exHash ∅ "1",
   c8_dedup_idempotence.2.1 exHash ∅ "1",
   c8_dedup_idempotence.2.2 exHash ∅ [⟨"alice", [⟨"1", "t"⟩]⟩] []
     ("alice", [⟨"1", "t"⟩]) (by decide) ⟨"1", "t"⟩ (by decide)⟩

/-! ## C9: the periodic aggregator's dedup step (`_deduplicate_items`)

`url_map` is a Python dict with insertion order; it is modelled as an
association list: assigning to a fresh key appends, assigning to an existing
key replaces in place. -/

/-- One entry extracted by `_parse_summary_items`. -/
structure SummaryItem where
  title : String
  url : String
  description : String
  full_text : String
deriving DecidableEq, Repr

/-- The keys of the insertion-ordered dict. -/
def keysOf (m : List (String × SummaryItem)) : List String := m.map Prod.fst

/-- `url_map[k]` lookup. -/
def mapGet : List (String × SummaryItem) → String → Option SummaryItem
  | [], _ => none
  | (k', v') :: rest, k => if k' = k then some v' else mapGet rest k

/-- `url_map[k] = v` on an existing key: replace in place. -/
def mapSet : List (String × SummaryItem) → String → SummaryItem →
    List (String × SummaryItem)
  | [], k, v => [(k, v)]
  | (k', v') :: rest, k, v =>
    if k' = k then (k, v) :: rest else (k', v') :: mapSet rest k v

/-- One iteration of the `_deduplicate_items` loop:
`if url not in url_map or len(item["full_text"]) > len(url_map[url]["full_text"]):
url_map[url] = item`. -/
def dedupStep (m : List (String × SummaryItem)) (item : SummaryItem) :
    List (String × SummaryItem) :=
  match mapGet m item.url with
  | none => m ++ [(item.url, item)]
  | some old =>
    if old.full_text.length < item.full_text.length then mapSet m item.url item
    else m

/-- Embeds `TwitterWatchdog._deduplicate_items`: fill `url_map` in input
order, return `list(url_map.values())`. -/
def deduplicate_items (all_items : List SummaryItem) : List SummaryItem :=
  (all_items.foldl dedupStep []).map Prod.snd

@[simp] theorem keysOf_nil : keysOf [] = [] := rfl

@[simp] theorem keysOf_cons (q : String × SummaryItem)
    (m : List (String × SummaryItem)) : keysOf (q :: m) = q.1 :: keysOf m := rfl

theorem mapGet_eq_none : ∀ (m : List (String × SummaryItem)) (k : String),
    mapGet m k = none ↔ k ∉ keysOf m
  | [], k => by simp [mapGet]
  | (a, b) :: rest, k => by
    by_cases hk : a = k
    · subst hk
      simp [mapGet]
    · rw [mapGet, if_neg hk, mapGet_eq_none rest k, keysOf_cons]
      simp only [List.mem_cons, not_or]
      constructor
      · intro h
        exact ⟨fun hc => hk hc.symm, h⟩
      · intro h
        exact h.2

theorem mapGet_mem : ∀ {m : List (String × SummaryItem)} {k : String}
    {v : SummaryItem}, mapGet m k = some v → (k, v) ∈ m
  | [], k, v, h => by simp [mapGet] at h
  | (a, b) :: rest, k, v, h => by
    rw [mapGet] at h
    by_cases hk : a = k
    · rw [if_pos hk] at h
      have hv : b = v := Option.some_inj.mp h
      subst hk
      subst hv
      exact List.mem_cons_self _ _
    · rw [if_neg hk] at h
      exact List.mem_cons_of_mem _ (mapGet_mem h)

theorem mapGet_of_mem_nodup : ∀ {m : List (String × SummaryItem)} {k : String}
    {v : SummaryItem}, (keysOf m).Nodup → (k, v) ∈ m → mapGet m k = some v
  | [], k, v, _, h => by simp at h
  | (a, b) :: rest, k, v, hn, h => by
    rw [keysOf_cons, List.nodup_cons] at hn
    rcases List.mem_cons.mp h with h | h
    · have hk : k = a := congrArg Prod.fst h
      have hv : v = b := congrArg Prod.snd h
      subst hk
      subst hv
      simp [mapGet]
    · have hk : a ≠ k := by
        intro hc
        subst hc
        have hmem : (a, v).1 ∈ keysOf rest := List.mem_map_of_mem Prod.fst h
        exact hn.1 hmem
      rw [mapGet, if_neg hk]
      exact mapGet_of_mem_nodup hn.2 h

theorem keysOf_mapSet : ∀ {m : List (String × SummaryItem)} {k : String}
    {v : SummaryItem}, k ∈ keysOf m → keysOf (mapSet m k v) = keysOf m
  | [], k, v, h => by simp at h
  | (a, b) :: rest, k, v, h => by
    by_cases hk : a = k
    · subst hk
      rw [mapSet, if_pos rfl]
      simp
    · rw [keysOf_cons] at h
      rcases List.mem_cons.mp h with h | h
      · exact absurd h.symm hk
      · rw [mapSet, if_neg hk, keysOf_cons, keysOf_cons, keysOf_mapSet h]

theorem mapSet_mem_self : ∀ {m : List (String × SummaryItem)} {k : String}
    (v : SummaryItem), k ∈ keysOf m → (k, v) ∈ mapSet m k v
  | [], k, v, h => by simp at h
  | (a, b) :: rest, k, v, h => by
    by_cases hk : a = k
    · rw [mapSet, if_pos hk]
      exact List.mem_cons_self _ _
    · rw [keysOf_cons] at h
      rcases List.mem_cons.mp h with h | h
      · exact absurd h.symm hk
      · rw [mapSet, if_neg hk]
        exact List.mem_cons_of_mem _ (mapSet_mem_self v h)

theorem mapSet_mem_other : ∀ {m : List (String × SummaryItem)} {k : String}
    {v : SummaryItem} {p : String × SummaryItem},
    p ∈ m → p.1 ≠ k → p ∈ mapSet m k v
  | [], k, v, p, hp, _ => by simp at hp
  | (a, b) :: rest, k, v, p, hp, hk => by
    rw [mapSet]
    by_cases hak : a = k
    · rw [if_pos hak]
      rcases List.mem_cons.mp hp with hp | hp
      · exact absurd (show p.1 = k by rw [hp, hak]) hk
      · exact List.mem_cons_of_mem _ hp
    · rw [if_neg hak]
      rcases List.mem_cons.mp hp with hp | hp
      · rw [hp]
        exact List.mem_cons_self _ _
      · exact List.mem_cons_of_mem _ (mapSet_mem_other hp hk)

theorem mapSet_mem : ∀ {m : List (String × SummaryItem)} {k : String}
    {v : SummaryItem} {p : String × SummaryItem}, (keysOf m).Nodup →
    p ∈ mapSet m k v → p = (k, v) ∨ (p ∈ m ∧ p.1 ≠ k)
  | [], k, v, p, _, hp => by
    rw [mapSet] at hp
    exact Or.inl (List.mem_singleton.mp hp)
  | (a, b) :: rest, k, v, p, hn, hp => by
    rw [keysOf_cons, List.nodup_cons] at hn
    rw [mapSet] at hp
    by_cases hak : a = k
    · rw [if_pos hak] at hp
      rcases List.mem_cons.mp hp with hp | hp
      · exact Or.inl hp
      · right
        refine ⟨List.mem_cons_of_mem _ hp, fun hc => ?_⟩
        have hmem : p.1 ∈ keysOf rest := List.mem_map_of_mem Prod.fst hp
        rw [hc, ← hak] at hmem
        exact hn.1 hmem
    · rw [if_neg hak] at hp
      rcases List.mem_cons.mp hp with hp | hp
      · right
        constructor
        · rw [hp]
          exact List.mem_cons_self _ _
        · rw [hp]
          exact hak
      · rcases mapSet_mem hn.2 hp with hp | hp
        · exact Or.inl hp
        · exact Or.inr ⟨List.mem_cons_of_mem _ hp.1, hp.2⟩

/-- Invariant of the `url_map` fold: distinct keys, every entry stems from a
processed item and is keyed by its url, every processed url has an entry,
and every entry maximizes `full_text` length among processed items with its
url. -/
def DedupInv (processed : List SummaryItem)
    (m : List (String × SummaryItem)) : Prop :=
  (keysOf m).Nodup ∧
  (∀ p ∈ m, p.2 ∈ processed ∧ p.1 = p.2.url) ∧
  (∀ it ∈ processed, ∃ p ∈ m, p.1 = it.url) ∧
  (∀ p ∈ m, ∀ it ∈ processed,
    it.url = p.1 → it.full_text.length ≤ p.2.full_text.length)

theorem dedupStep_inv {processed : List SummaryItem}
    {m : List (String × SummaryItem)} (item : SummaryItem)
    (h : DedupInv processed m) :
    DedupInv (processed ++ [item]) (dedupStep m item) := by
  obtain ⟨hnodup, hfrom, hcover, hmax⟩ := h
  cases hget : mapGet m item.url with
  | none =>
    have hfresh : item.url ∉ keysOf m := (mapGet_eq_none m item.url).mp hget
    have hstep : dedupStep m item = m ++ [(item.url, item)] := by
      rw [dedupStep, hget]
    rw [DedupInv, hstep]
    refine ⟨?_, ?_, ?_, ?_⟩
    · have hkeys : keysOf (m ++ [(item.url, item)]) = keysOf m ++ [item.url] := by
        simp [keysOf]
      rw [hkeys, List.nodup_append]
      refine ⟨hnodup, List.nodup_singleton _, ?_⟩
      intro x hx hx2
      rw [List.mem_singleton] at hx2
      rw [hx2] at hx
      exact hfresh hx
    · intro p hp
      rcases List.mem_append.mp hp with h1 | h1
      · exact ⟨List.mem_append_left _ (hfrom p h1).1, (hfrom p h1).2⟩
      · rw [List.mem_singleton] at h1
        subst h1
        exact ⟨List.mem_append_right _ (List.mem_singleton_self _), rfl⟩
    · intro it hit
      rcases List.mem_append.mp hit with h1 | h1
      · rcases hcover it h1 with ⟨p, hp, hkey⟩
        exact ⟨p, List.mem_append_left _ hp, hkey⟩
      · rw [List.mem_singleton] at h1
        subst h1
        exact ⟨(it.url, it),
          List.mem_append_right _ (List.mem_singleton_self _), rfl⟩
    · intro p hp it hit hurl
      rcases List.mem_append.mp hp with h1 | h1
      · rcases List.mem_append.mp hit with h2 | h2
        · exact hmax p h1 it h2 hurl
        · rw [List.mem_singleton] at h2
          exfalso
          have hmem : p.1 ∈ keysOf m := List.mem_map_of_mem Prod.fst h1
          rw [← hurl, h2] at hmem
          exact hfresh hmem
      · rw [List.mem_singleton] at h1
        subst h1
        have hurl2 : it.url = item.url := hurl
        rcases List.mem_append.mp hit with h2 | h2
        · exfalso
          rcases hcover it h2 with ⟨q, hq, hk⟩
          have hmem : q.1 ∈ keysOf m := List.mem_map_of_mem Prod.fst hq
          rw [hk, hurl2] at hmem
          exact hfresh hmem
        · rw [List.mem_singleton] at h2
          subst h2
          exact Nat.le_refl _
  | some old =>
    have hkeymem : item.url ∈ keysOf m :=
      List.mem_map_of_mem Prod.fst (mapGet_mem hget)
    by_cases hlt : old.full_text.length < item.full_text.length
    · have hstep : dedupStep m item = mapSet m item.url item := by
        rw [dedupStep, hget]
        exact if_pos hlt
      rw [DedupInv, hstep]
      refine ⟨?_, ?_, ?_, ?_⟩
      · rw [keysOf_mapSet hkeymem]
        exact hnodup
      · intro p hp
        rcases mapSet_mem hnodup hp with h1 | ⟨h1, _⟩
        · subst h1
          exact ⟨List.mem_append_right _ (List.mem_singleton_self _), rfl⟩
        · exact ⟨List.mem_append_left _ (hfrom p h1).1, (hfrom p h1).2⟩
      · intro it hit
        rcases List.mem_append.mp hit with h1 | h1
        · rcases hcover it h1 with ⟨p, hp, hk⟩
          by_cases hpk : p.1 = item.url
          · refine ⟨(item.url, item), mapSet_mem_self item hkeymem, ?_⟩
            show item.url = it.url
            rw [← hpk, hk]
          · exact ⟨p, mapSet_mem_other hp hpk, hk⟩
        · rw [List.mem_singleton] at h1
          subst h1
          exact ⟨(it.url, it), mapSet_mem_self it hkeymem, rfl⟩
      · intro p hp it hit hurl
        rcases mapSet_mem hnodup hp with h1 | ⟨h1, hpk⟩
        · subst h1
          have hurl2 : it.url = item.url := hurl
          rcases List.mem_append.mp hit with h2 | h2
          · have hle : it.full_text.length ≤ old.full_text.length :=
              hmax (item.url, old) (mapGet_mem hget) it h2 hurl2
            show it.full_text.length ≤ item.full_text.length
            exact Nat.le_of_lt (Nat.lt_of_le_of_lt hle hlt)
          · rw [List.mem_singleton] at h2
            subst h2
            exact Nat.le_refl _
        · rcases List.mem_append.mp hit with h2 | h2
          · exact hmax p h1 it h2 hurl
          · rw [List.mem_singleton] at h2
            subst h2
            exact absurd hurl.symm hpk
    · have hstep : dedupStep m item = m := by
        rw [dedupStep, hget]
        exact if_neg hlt
      rw [DedupInv, hstep]
      refine ⟨hnodup, ?_, ?_, ?_⟩
      · intro p hp
        exact ⟨List.mem_append_left _ (hfrom p hp).1, (hfrom p hp).2⟩
      · intro it hit
        rcases List.mem_append.mp hit with h1 | h1
        · exact hcover it h1
        · rw [List.mem_singleton] at h1
          subst h1
          exact ⟨(it.url, old), mapGet_mem hget, rfl⟩
      · rintro ⟨pk, pv⟩ hp it hit hurl
        rcases List.mem_append.mp hit with h2 | h2
        · exact hmax (pk, pv) hp it h2 hurl
        · rw [List.mem_singleton] at h2
          subst h2
          have hurl2 : it.url = pk := hurl
          have hpget : mapGet m pk = some pv := mapGet_of_mem_nodup hnodup hp
          rw [← hurl2] at hpget
          rw [hget] at hpget
          have hov : old = pv := Option.some_inj.mp hpget
          show it.full_text.length ≤ pv.full_text.length
          rw [← hov]
          exact Nat.le_of_not_lt hlt

theorem dedup_fold_inv :
    ∀ (items processed : List SummaryItem) (m : List (String × SummaryItem)),
      DedupInv processed m →
      DedupInv (processed ++ items) (items.foldl dedupStep m) := by
  intro items
  induction items with
  | nil => intro processed m h; simpa using h
  | cons item items ih =>
    intro processed m h
    rw [List.foldl_cons]
    have := ih (processed ++ [item]) (dedupStep m item) (dedupStep_inv item h)
    simpa using this

/-- **C9.** `_deduplicate_items` keeps exactly one entry per canonical link:
the output's urls are pairwise distinct, every output entry is one of the
input entries, every input link is represented, and each kept entry has
maximal `full_text` length among the input entries sharing its link. -/
theorem c9_deduplicate_items (all_items : List SummaryItem) :
    ((deduplicate_items all_items).map SummaryItem.url).Nodup ∧
    (∀ o ∈ deduplicate_items all_items, o ∈ all_items) ∧
    (∀ it ∈ all_items, ∃ o ∈ deduplicate_items all_items, o.url = it.url) ∧
    (∀ o ∈ deduplicate_items all_items, ∀ it ∈ all_items,
      it.url = o.url → it.full_text.length ≤ o.full_text.length) := by
  have hinv : DedupInv all_items (all_items.foldl dedupStep []) := by
    have := dedup_fold_inv all_items [] []
      ⟨List.nodup_nil, by intro p hp; simp at hp,
       by intro it hit; simp at hit, by intro p hp; simp at hp⟩
    simpa using this
  obtain ⟨hnodup, hfrom, hcover, hmax⟩ := hinv
  refine ⟨?_, ?_, ?_, ?_⟩
  · rw [deduplicate_items, List.map_map]
    have : (all_items.foldl dedupStep []).map (SummaryItem.url ∘ Prod.snd)
        = (all_items.foldl dedupStep []).map Prod.fst := by
      refine List.map_congr_left ?_
      intro p hp
      exact ((hfrom p hp).2).symm
    rw [this]
    exact hnodup
  · intro o ho
    rw [deduplicate_items] at ho
    rcases List.mem_map.mp ho with ⟨p, hp, hpo⟩
    exact hpo ▸ (hfrom p hp).1
  · intro it hit
    rcases hcover it hit with ⟨p, hp, hk⟩
    exact ⟨p.2, List.mem_map_of_mem Prod.snd hp, by rw [← (hfrom p hp).2, hk]⟩
  · intro o ho it hit hurl
    rw [deduplicate_items] at ho
    rcases List.mem_map.mp ho with ⟨p, hp, hpo⟩
    refine hpo ▸ hmax p hp it hit ?_
    rw [(hfrom p hp).2, hpo, hurl]

/-- Witness for C9 at a concrete input with two entries sharing one link. -/
theorem c9_deduplicate_items_witness :
    ∃ o ∈ deduplicate_items
      [⟨"t1", "u", "d1", "short"⟩, ⟨"t2", "u", "d2", "longertext"⟩],
      o.url = "u" :=
  (c9_deduplicate_items
      [⟨"t1", "u", "d1", "short"⟩, ⟨"t2", "u", "d2", "longertext"⟩]).2.2.1
    ⟨"t1", "u", "d1", "short"⟩ (by decide)

/-! ## Time parsing (`parse_tweet_time`) and the window filter -/

/-- A Python `datetime`: `instant` is the POSIX timestamp in seconds for an
aware value; for a naive value it stores the wall-clock reading taken as
UTC, which makes `replace(tzinfo=timezone.utc)` exactly "set the offset to
0". `tzOffsetMin` is the UTC offset in minutes, `none` for naive. Aware
datetimes compare and subtract by instant. -/
structure PyDateTime where
  instant : Int
  tzOffsetMin : Option Int
deriving DecidableEq, Repr

/-- The `TZ_CN = timezone(timedelta(hours=8))` offset, in minutes. -/
def TZ_CN : Int := 480

/-- `datetime.min` (0001-01-01T00:00:00) as POSIX wall-clock seconds. -/
def PY_MIN_WALL : Int := -62135596800

/-- `datetime.max` (9999-12-31T23:59:59, second resolution) as POSIX
wall-clock seconds. -/
def PY_MAX_WALL : Int := 253402300799

/-- The range condition under which `dt.astimezone(tz)` succeeds for an
aware `dt`: both the intermediate UTC wall clock (`self - self.utcoffset()`)
and the converted wall clock (`utc + tz.utcoffset()`) must stay inside the
supported `datetime` range (years 1-9999). -/
abbrev InDtRange (d : PyDateTime) (offsetMin : Int) : Prop :=
  PY_MIN_WALL ≤ d.instant ∧ d.instant ≤ PY_MAX_WALL ∧
  PY_MIN_WALL ≤ d.instant + offsetMin * 60 ∧ d.instant + offsetMin * 60 ≤ PY_MAX_WALL

/-- `dt.astimezone(tz)`: same instant, new offset — but when either the
intermediate UTC value or the converted wall clock falls outside the
supported `datetime` range, CPython raises `OverflowError`, modeled as
`.error ()`. -/
def astimezone (d : PyDateTime) (offsetMin : Int) : Except Unit PyDateTime :=
  if InDtRange d offsetMin then
    .ok { instant := d.instant, tzOffsetMin := some offsetMin }
  else
    .error ()

/-- Embeds `TwitterWatchdog.parse_tweet_time`. `strptimeTw` models
`datetime.strptime(s, "%a %b %d %H:%M:%S %z %Y")` and `fromiso` models
`datetime.fromisoformat(s)`; on a string input both only ever raise
`ValueError`, modeled as `Except Unit PyDateTime`, and both `except`
clauses in the source catch exactly `ValueError`. An empty (falsy) string
returns `None`; a naive ISO result is first given the UTC offset; a
successful parse is converted to the `TZ_CN` zone — and an `OverflowError`
raised by that `astimezone` call is NOT caught and propagates
(`.error ()`). -/
def parse_tweet_time (strptimeTw fromiso : String → Except Unit PyDateTime)
    (created_at : String) : Except Unit (Option PyDateTime) :=
  if created_at = "" then .ok none
  else
    match strptimeTw created_at with
    | .ok dt =>
      match astimezone dt TZ_CN with
      | .ok r => .ok (some r)
      | .error e => .error e
    | .error _ =>
      match fromiso created_at with
      | .ok dt =>
        match astimezone
          (if dt.tzOffsetMin = none then { dt with tzOffsetMin := some 0 } else dt)
          TZ_CN with
        | .ok r => .ok (some r)
        | .error e => .error e
      | .error _ => .ok none

/-- Embeds `TwitterWatchdog.is_tweet_in_window`: true when `hours_ago` is
unset, or the tweet's `createdAt` cannot be parsed (fail open), or the
parsed instant is at least `now - hours_ago` hours; an `OverflowError`
escaping `parse_tweet_time` propagates through the filter. -/
def is_tweet_in_window (strptimeTw fromiso : String → Except Unit PyDateTime)
    (hours_ago : Option Int) (now : Int) (tweet : Tweet) : Except Unit Bool :=
  match hours_ago with
  | none => .ok true
  | some h =>
    match parse_tweet_time strptimeTw fromiso tweet.createdAt with
    | .error e => .error e
    | .ok none => .ok true
    | .ok (some created) => .ok (decide (now - h * 3600 ≤ created.instant))

theorem astimezone_pos {d : PyDateTime} {off : Int} (h : InDtRange d off) :
    astimezone d off = Except.ok ⟨d.instant, some off⟩ := by
  rw [astimezone, if_pos h]

theorem astimezone_neg {d : PyDateTime} {off : Int} (h : ¬ InDtRange d off) :
    astimezone d off = Except.error () := by
  rw [astimezone, if_neg h]

theorem astimezone_ok_tz {d : PyDateTime} {off : Int} {r : PyDateTime}
    (h : astimezone d off = Except.ok r) : r = ⟨d.instant, some off⟩ := by
  by_cases hc : InDtRange d off
  · rw [astimezone_pos hc] at h
    injection h with h
    exact h.symm
  · rw [astimezone_neg hc] at h
    simp at h

/-- The concrete oracles of the time claims: the Twitter format matches one
fixed string; the ISO format matches `"t7"`/`"t9"` (naively, instants 7 and
9 hours before `1000000`) and the near-maximal naive timestamp
`"9999-12-31T23:00:00"`, whose wall clock read as UTC is `253402297200`
seconds from the epoch — exactly what `datetime.fromisoformat` produces. -/
def twEx : String → Except Unit PyDateTime := fun s =>
  if s = "Sat Feb 07 11:01:48 +0000 2026" then .ok ⟨100, some 0⟩ else .error ()

/-- ISO-format witness oracle, see `twEx`. -/
def isoEx : String → Except Unit PyDateTime := fun s =>
  if s = "t7" then .ok ⟨974800, none⟩
  else if s = "t9" then .ok ⟨967600, none⟩
  else if s = "9999-12-31T23:00:00" then .ok ⟨253402297200, none⟩
  else .error ()

/-- **C10, counterexample.** The parser is not total: the string
`"9999-12-31T23:00:00"` is accepted by `fromisoformat` (naive, so it is
read as UTC), but converting it to UTC+8 pushes the wall clock past year
9999, and the resulting `OverflowError` is not caught (lines 156/164 catch
only `ValueError`) — `parse_tweet_time` raises instead of returning `None`
or a datetime. -/
theorem c10_overflow_counterexample :
    parse_tweet_time twEx isoEx "9999-12-31T23:00:00" = Except.error () := by
  rfl

/-- **C10 (amended).** For every string input, both format parsers'
`ValueError`s are caught: the parser returns `None` exactly for the empty
string or a string matching neither format, and any returned datetime is
aware and in the UTC+8 zone; a naive ISO timestamp is interpreted as UTC
before conversion, the conversion succeeding exactly when the result stays
within the supported `datetime` range — and the only escaping exception is
the uncaught `OverflowError` of an out-of-range `astimezone` conversion. -/
theorem c10_parse_tweet_time_behaviour
    (tw iso : String → Except Unit PyDateTime) (s : String) :
    (parse_tweet_time tw iso s = Except.ok none ↔
      s = "" ∨ (tw s = Except.error () ∧ iso s = Except.error ())) ∧
    (∀ d, parse_tweet_time tw iso s = Except.ok (some d) →
      d.tzOffsetMin = some TZ_CN) ∧
    (∀ d, s ≠ "" → tw s = Except.error () → iso s = Except.ok d →
      d.tzOffsetMin = none →
      parse_tweet_time tw iso s =
        if InDtRange d TZ_CN then Except.ok (some ⟨d.instant, some TZ_CN⟩)
        else Except.error ()) ∧
    (parse_tweet_time tw iso s = Except.error () →
      (∃ d, tw s = Except.ok d ∧ astimezone d TZ_CN = Except.error ()) ∨
      (∃ d, tw s = Except.error () ∧ iso s = Except.ok d ∧
        astimezone
          (if d.tzOffsetMin = none then { d with tzOffsetMin := some 0 } else d)
          TZ_CN = Except.error ())) := by
  refine ⟨?_, ?_, ?_, ?_⟩
  · by_cases hs : s = ""
    · simp [parse_tweet_time, hs]
    · rw [parse_tweet_time, if_neg hs]
      cases htw : tw s with
      | ok dt =>
        cases haz : astimezone dt TZ_CN with
        | ok r => simp [hs, htw, haz]
        | error e => cases e; simp [hs, htw, haz]
      | error e =>
        cases e
        cases hiso : iso s with
        | ok dt =>
          cases haz : astimezone
              (if dt.tzOffsetMin = none then { dt with tzOffsetMin := some 0 } else dt)
              TZ_CN with
          | ok r => simp [hs, htw, hiso, haz]
          | error e2 => cases e2; simp [hs, htw, hiso, haz]
        | error e2 => cases e2; simp [hs, htw, hiso]
  · intro d hd
    by_cases hs : s = ""
    · rw [parse_tweet_time, if_pos hs] at hd
      simp at hd
    · rw [parse_tweet_time, if_neg hs] at hd
      cases htw : tw s with
      | ok dt =>
        simp only [htw] at hd
        cases haz : astimezone dt TZ_CN with
        | ok r =>
          simp only [haz, Except.ok.injEq, Option.some.injEq] at hd
          rw [← hd, astimezone_ok_tz haz]
        | error e =>
          simp only [haz] at hd
          exact Except.noConfusion hd
      | error e =>
        cases e
        simp only [htw] at hd
        cases hiso : iso s with
        | ok dt =>
          simp only [hiso] at hd
          cases haz : astimezone
              (if dt.tzOffsetMin = none then { dt with tzOffsetMin := some 0 } else dt)
              TZ_CN with
          | ok r =>
            simp only [haz, Except.ok.injEq, Option.some.injEq] at hd
            rw [← hd, astimezone_ok_tz haz]
          | error e2 =>
            simp only [haz] at hd
            exact Except.noConfusion hd
        | error e2 =>
          simp only [hiso] at hd
          simp at hd
  · intro d hs htw hiso hnaive
    rw [parse_tweet_time, if_neg hs]
    simp only [htw, hiso, if_pos hnaive]
    by_cases hc : InDtRange d TZ_CN
    · have hc2 : InDtRange ⟨d.instant, some 0⟩ TZ_CN := hc
      simp only [astimezone_pos hc2, if_pos hc]
    · have hc2 : ¬ InDtRange ⟨d.instant, some 0⟩ TZ_CN := hc
      simp only [astimezone_neg hc2, if_neg hc]
  · intro herr
    by_cases hs : s = ""
    · rw [parse_tweet_time, if_pos hs] at herr
      simp at herr
    · rw [parse_tweet_time, if_neg hs] at herr
      cases htw : tw s with
      | ok dt =>
        simp only [htw] at herr
        cases haz : astimezone dt TZ_CN with
        | ok r =>
          simp only [haz] at herr
          exact Except.noConfusion herr
        | error e =>
          cases e
          exact Or.inl ⟨dt, rfl, haz⟩
      | error e =>
        cases e
        simp only [htw] at herr
        cases hiso : iso s with
        | ok dt =>
          simp only [hiso] at herr
          cases haz : astimezone
              (if dt.tzOffsetMin = none then { dt with tzOffsetMin := some 0 } else dt)
              TZ_CN with
          | ok r =>
            simp only [haz] at herr
            exact Except.noConfusion herr
          | error e2 =>
            cases e2
            exact Or.inr ⟨dt, rfl, rfl, haz⟩
        | error e2 =>
          simp only [hiso] at herr
          exact Except.noConfusion herr

/-- Witness for C10 (amended) at concrete inputs: an unmatched string
yields `None`; an in-range naive ISO string is read as UTC and converted to
UTC+8. -/
theorem c10_parse_tweet_time_behaviour_witness :
    parse_tweet_time twEx isoEx "zzz" = Except.ok none ∧
    parse_tweet_time twEx isoEx "t7" = Except.ok (some ⟨974800, some TZ_CN⟩) := by
  constructor
  · exact (c10_parse_tweet_time_behaviour twEx isoEx "zzz").1.mpr
      (Or.inr ⟨rfl, rfl⟩)
  · rw [(c10_parse_tweet_time_behaviour twEx isoEx "t7").2.2.1 ⟨974800, none⟩
      (by decide) rfl rfl rfl]
    exact if_pos (by decide)

/-- **C7, counterexample.** With an 8-hour lookback, a tweet whose
`createdAt` is `"9999-12-31T23:00:00"` makes the window filter raise the
`OverflowError` escaping `parse_tweet_time` instead of returning true: the
claimed "returns true exactly when ..." characterization (and its fail-open
guarantee) is false on the source. -/
theorem c7_overflow_counterexample :
    is_tweet_in_window twEx isoEx (some 8) 1000000 ⟨"a", "9999-12-31T23:00:00"⟩
      = Except.error () := by
  rfl

/-- **C7 (amended).** The window filter returns true when the lookback is
unset; with a lookback set it returns true when the timestamp is rejected
by both formats (fail open), and for a parsed timestamp it returns true
exactly when the parsed instant is at least `now` minus the lookback — in
particular with an 8-hour lookback an item 7 hours old is included and one
9 hours old excluded. Exception: a timestamp whose UTC+8 conversion leaves
the supported `datetime` range makes the filter propagate the uncaught
`OverflowError` instead of returning a boolean. -/
theorem c7_window_filter_cases (tw iso : String → Except Unit PyDateTime)
    (now : Int) (t : Tweet) :
    (is_tweet_in_window tw iso none now t = Except.ok true) ∧
    (∀ h : Int, parse_tweet_time tw iso t.createdAt = Except.ok none →
      is_tweet_in_window tw iso (some h) now t = Except.ok true) ∧
    (∀ (h : Int) (d : PyDateTime),
      parse_tweet_time tw iso t.createdAt = Except.ok (some d) →
      (is_tweet_in_window tw iso (some h) now t = Except.ok true ↔
        now - h * 3600 ≤ d.instant)) ∧
    (∀ h : Int, parse_tweet_time tw iso t.createdAt = Except.error () →
      is_tweet_in_window tw iso (some h) now t = Except.error ()) ∧
    (∀ d : PyDateTime, parse_tweet_time tw iso t.createdAt = Except.ok (some d) →
      d.instant = now - 7 * 3600 →
      is_tweet_in_window tw iso (some 8) now t = Except.ok true) ∧
    (∀ d : PyDateTime, parse_tweet_time tw iso t.createdAt = Except.ok (some d) →
      d.instant = now - 9 * 3600 →
      is_tweet_in_window tw iso (some 8) now t = Except.ok false) := by
  refine ⟨rfl, ?_, ?_, ?_, ?_, ?_⟩
  · intro h hp
    rw [is_tweet_in_window]
    simp only [hp]
  · intro h d hp
    rw [is_tweet_in_window]
    simp only [hp, Except.ok.injEq, decide_eq_true_eq]
  · intro h hp
    rw [is_tweet_in_window]
    simp only [hp]
  · intro d hp hinst
    rw [is_tweet_in_window]
    simp only [hp, Except.ok.injEq, decide_eq_true_eq]
    omega
  · intro d hp hinst
    rw [is_tweet_in_window]
    simp only [hp, Except.ok.injEq, decide_eq_false_iff_not]
    omega

/-- Witness for C7 (amended) at concrete inputs with `now = 1000000` and an
8-hour lookback: the 7-hour-old item is included, the 9-hour-old excluded,
the unparsable one included, and no lookback includes everything. -/
theorem c7_window_filter_cases_witness :
    is_tweet_in_window twEx isoEx (some 8) 1000000 ⟨"a", "t7"⟩ = Except.ok true ∧
    is_tweet_in_window twEx isoEx (some 8) 1000000 ⟨"a", "t9"⟩ = Except.ok false ∧
    is_tweet_in_window twEx isoEx (some 8) 1000000 ⟨"a", "zzz"⟩ = Except.ok true ∧
    is_tweet_in_window twEx isoEx none 1000000 ⟨"a", "t7"⟩ = Except.ok true :=
  ⟨(c7_window_filter_cases twEx isoEx 1000000 ⟨"a", "t7"⟩).2.2.2.2.1
      ⟨974800, some TZ_CN⟩ rfl (by decide),
   (c7_window_filter_cases twEx isoEx 1000000 ⟨"a", "t9"⟩).2.2.2.2.2
      ⟨967600, some TZ_CN⟩ rfl (by decide),
   (c7_window_filter_cases twEx isoEx 1000000 ⟨"a", "zzz"⟩).2.1 8 rfl,
   (c7_window_filter_cases twEx isoEx 1000000 ⟨"a", "t7"⟩).1⟩

end TwitterWatchdog
